import Mathlib

/-!
Verification of the fallback-chain LLM query service (`llm.service.py`,
`main.py`, `error_handler.py`).

The development shallowly embeds the Python source:

* JSON values (`JValue`) model the values produced by Python's `json.loads`;
  `jsonParse` models `json.loads` itself (restricted to the fragment the
  service exercises: integer numerals, no float/exponent literals, BMP
  escapes), and `dumpChars` models JSON serialization of such a value.
  Objects are modelled as association lists in insertion order; lookups
  (`jget`) return the last binding for a key, matching Python's dict
  semantics where a later duplicate key wins.
* `_validate_json_response`, `parse_ai_response`, `query_with_fallback`,
  the fallback catalog, construction checks and the error-sink forwarding
  condition are translated function by function from the source.
* Network effects are abstracted: a model invocation is a function
  `String → InvokeResult`, giving for each model name the outcome of
  `query_perplexity_model` for it (an (answer, error) pair, or a raised
  exception).  The orchestrator additionally threads the list of models it
  actually invoked, so that "model X was never invoked" is expressible.
-/

/-- JSON values as produced by Python's `json.loads` on the fragment used by
the service.  Numbers are restricted to integers (the service's own prompts
and defaults only ever produce integer-free or integer-valued JSON; float
semantics are outside this embedding). -/
inductive JValue where
  | null : JValue
  | bool (b : Bool) : JValue
  | num (n : Int) : JValue
  | str (s : String) : JValue
  | arr (vs : List JValue) : JValue
  | obj (kvs : List (String × JValue)) : JValue

mutual

/-- Boolean equality on `JValue`, used to build a `DecidableEq` instance. -/
def jeq : JValue → JValue → Bool
  | .null, .null => true
  | .bool a, .bool b => a == b
  | .num a, .num b => a == b
  | .str a, .str b => a == b
  | .arr as, .arr bs => jeqL as bs
  | .obj as, .obj bs => jeqKV as bs
  | _, _ => false

/-- Boolean equality on lists of `JValue`. -/
def jeqL : List JValue → List JValue → Bool
  | [], [] => true
  | a :: as, b :: bs => jeq a b && jeqL as bs
  | _, _ => false

/-- Boolean equality on association lists of `JValue`. -/
def jeqKV : List (String × JValue) → List (String × JValue) → Bool
  | [], [] => true
  | (k, v) :: as, (k', v') :: bs => k == k' && jeq v v' && jeqKV as bs
  | _, _ => false

end

mutual

theorem jeq_iff : ∀ a b : JValue, jeq a b = true ↔ a = b
  | .null, .null => by simp [jeq]
  | .bool _, .bool _ => by simp [jeq]
  | .num _, .num _ => by simp [jeq]
  | .str _, .str _ => by simp [jeq]
  | .arr as, .arr bs => by simp [jeq, jeqL_iff as bs]
  | .obj as, .obj bs => by simp [jeq, jeqKV_iff as bs]
  | .null, .bool _ => by simp [jeq]
  | .null, .num _ => by simp [jeq]
  | .null, .str _ => by simp [jeq]
  | .null, .arr _ => by simp [jeq]
  | .null, .obj _ => by simp [jeq]
  | .bool _, .null => by simp [jeq]
  | .bool _, .num _ => by simp [jeq]
  | .bool _, .str _ => by simp [jeq]
  | .bool _, .arr _ => by simp [jeq]
  | .bool _, .obj _ => by simp [jeq]
  | .num _, .null => by simp [jeq]
  | .num _, .bool _ => by simp [jeq]
  | .num _, .str _ => by simp [jeq]
  | .num _, .arr _ => by simp [jeq]
  | .num _, .obj _ => by simp [jeq]
  | .str _, .null => by simp [jeq]
  | .str _, .bool _ => by simp [jeq]
  | .str _, .num _ => by simp [jeq]
  | .str _, .arr _ => by simp [jeq]
  | .str _, .obj _ => by simp [jeq]
  | .arr _, .null => by simp [jeq]
  | .arr _, .bool _ => by simp [jeq]
  | .arr _, .num _ => by simp [jeq]
  | .arr _, .str _ => by simp [jeq]
  | .arr _, .obj _ => by simp [jeq]
  | .obj _, .null => by simp [jeq]
  | .obj _, .bool _ => by simp [jeq]
  | .obj _, .num _ => by simp [jeq]
  | .obj _, .str _ => by simp [jeq]
  | .obj _, .arr _ => by simp [jeq]

theorem jeqL_iff : ∀ as bs : List JValue, jeqL as bs = true ↔ as = bs
  | [], [] => by simp [jeqL]
  | a :: as, b :: bs => by simp [jeqL, jeq_iff a b, jeqL_iff as bs]
  | [], _ :: _ => by simp [jeqL]
  | _ :: _, [] => by simp [jeqL]

theorem jeqKV_iff : ∀ as bs : List (String × JValue), jeqKV as bs = true ↔ as = bs
  | [], [] => by simp [jeqKV]
  | (k, v) :: as, (k', v') :: bs => by
    simp [jeqKV, jeq_iff v v', jeqKV_iff as bs, Prod.ext_iff, and_assoc]
  | [], _ :: _ => by simp [jeqKV]
  | _ :: _, [] => by simp [jeqKV]

end

instance : DecidableEq JValue := fun a b => decidable_of_iff _ (jeq_iff a b)

/-! ### A JSON reader modelling `json.loads` -/

/-- JSON whitespace characters (space, tab, newline, carriage return). -/
def isWsChar (c : Char) : Bool :=
  c.toNat = 32 || c.toNat = 9 || c.toNat = 10 || c.toNat = 13

/-- ASCII decimal digit test, by code point. -/
def isDigitChar (c : Char) : Bool :=
  48 ≤ c.toNat && c.toNat ≤ 57

/-- Drop leading JSON whitespace. -/
def skipWs : List Char → List Char
  | [] => []
  | c :: cs => if isWsChar c then skipWs cs else c :: cs

/-- Consume an expected literal character sequence. -/
def expectChars : List Char → List Char → Option (List Char)
  | [], cs => some cs
  | _ :: _, [] => none
  | p :: ps, c :: cs => if c = p then expectChars ps cs else none

/-- Consume a maximal run of decimal digits, accumulating their value. -/
def parseDigits : List Char → Nat → Nat × List Char
  | [], acc => (acc, [])
  | c :: cs, acc =>
    if isDigitChar c then parseDigits cs (acc * 10 + (c.toNat - 48)) else (acc, c :: cs)

/-- Unsigned JSON integer: `0`, or a nonzero leading digit followed by digits
(leading zeros are not part of the JSON number grammar). -/
def parseUNum : List Char → Option (Nat × List Char)
  | [] => none
  | c :: cs =>
    if c = '0' then some (0, cs)
    else if isDigitChar c then some (parseDigits cs (c.toNat - 48))
    else none

/-- Signed JSON integer. -/
def parseNum (cs : List Char) : Option (Int × List Char) :=
  match cs with
  | [] => none
  | c :: rest =>
    if c = '-' then (parseUNum rest).map (fun p => (-(p.1 : Int), p.2))
    else (parseUNum (c :: rest)).map (fun p => ((p.1 : Int), p.2))

/-- Single-character JSON string escapes. -/
def escUnmap (e : Char) : Option Char :=
  if e = '"' then some '"'
  else if e = '\\' then some '\\'
  else if e = '/' then some '/'
  else if e = 'n' then some '\n'
  else if e = 't' then some '\t'
  else if e = 'r' then some '\r'
  else if e = 'b' then some '\x08'
  else if e = 'f' then some '\x0c'
  else none

/-- Hexadecimal digit value. -/
def hexVal (c : Char) : Option Nat :=
  if 48 ≤ c.toNat ∧ c.toNat ≤ 57 then some (c.toNat - 48)
  else if 97 ≤ c.toNat ∧ c.toNat ≤ 102 then some (c.toNat - 87)
  else if 65 ≤ c.toNat ∧ c.toNat ≤ 70 then some (c.toNat - 55)
  else none

/-- Body of a JSON string after the opening quote: stops at the closing
quote, decodes escapes, and (like Python's strict mode) rejects raw control
characters.  The fuel argument only bounds the recursion depth: callers
pass the remaining input length, and every step consumes at least one input
character, so the bound is never hit before the input ends. -/
def parseStringBody : Nat → List Char → Option (List Char × List Char)
  | 0, _ => none
  | fuel + 1, cs =>
    match cs with
    | [] => none
    | c :: rest =>
      if c = '"' then some ([], rest)
      else if c = '\\' then
        match rest with
        | [] => none
        | e :: rest₂ =>
          if e = 'u' then
            match rest₂ with
            | h1 :: h2 :: h3 :: h4 :: rest₃ =>
              match hexVal h1, hexVal h2, hexVal h3, hexVal h4 with
              | some a, some b, some c', some d =>
                (parseStringBody fuel rest₃).map
                  (fun p => (Char.ofNat (a * 4096 + b * 256 + c' * 16 + d) :: p.1, p.2))
              | _, _, _, _ => none
            | _ => none
          else
            match escUnmap e with
            | some d => (parseStringBody fuel rest₂).map (fun p => (d :: p.1, p.2))
            | none => none
      else if c.toNat < 32 then none
      else (parseStringBody fuel rest).map (fun p => (c :: p.1, p.2))

mutual

/-- One JSON value.  The `fuel` argument only bounds the recursion depth of
the mutual loop; `jsonParse` supplies more fuel than any input can consume. -/
def parseValue : Nat → List Char → Option (JValue × List Char)
  | 0, _ => none
  | fuel + 1, cs =>
    match skipWs cs with
    | [] => none
    | c :: rest =>
      if c = 'n' then (expectChars ['u', 'l', 'l'] rest).map (fun r => (JValue.null, r))
      else if c = 't' then (expectChars ['r', 'u', 'e'] rest).map (fun r => (JValue.bool true, r))
      else if c = 'f' then
        (expectChars ['a', 'l', 's', 'e'] rest).map (fun r => (JValue.bool false, r))
      else if c = '"' then
        (parseStringBody rest.length rest).map (fun p => (JValue.str (String.mk p.1), p.2))
      else if c = '[' then
        match skipWs rest with
        | [] => none
        | d :: r =>
          if d = ']' then some (JValue.arr [], r)
          else (parseElems fuel (d :: r)).map (fun p => (JValue.arr p.1, p.2))
      else if c = '\x7b' then
        match skipWs rest with
        | [] => none
        | d :: r =>
          if d = '\x7d' then some (JValue.obj [], r)
          else (parseMembers fuel (d :: r)).map (fun p => (JValue.obj p.1, p.2))
      else if c = '-' then (parseNum (c :: rest)).map (fun p => (JValue.num p.1, p.2))
      else if isDigitChar c then (parseNum (c :: rest)).map (fun p => (JValue.num p.1, p.2))
      else none

/-- The elements of a nonempty JSON array, up to and including `]`. -/
def parseElems : Nat → List Char → Option (List JValue × List Char)
  | 0, _ => none
  | fuel + 1, cs =>
    match parseValue fuel cs with
    | none => none
    | some (v, rest) =>
      match skipWs rest with
      | [] => none
      | d :: r =>
        if d = ',' then (parseElems fuel r).map (fun p => (v :: p.1, p.2))
        else if d = ']' then some ([v], r)
        else none

/-- The members of a nonempty JSON object, up to and including the closing
brace. -/
def parseMembers : Nat → List Char → Option (List (String × JValue) × List Char)
  | 0, _ => none
  | fuel + 1, cs =>
    match skipWs cs with
    | [] => none
    | c :: rest =>
      if c = '"' then
        match parseStringBody rest.length rest with
        | none => none
        | some (k, rest₂) =>
          match skipWs rest₂ with
          | [] => none
          | d :: rest₃ =>
            if d = ':' then
              match parseValue fuel rest₃ with
              | none => none
              | some (v, rest₄) =>
                match skipWs rest₄ with
                | [] => none
                | e :: r =>
                  if e = ',' then
                    (parseMembers fuel r).map (fun p => ((String.mk k, v) :: p.1, p.2))
                  else if e = '\x7d' then some ([(String.mk k, v)], r)
                  else none
            else none
      else none

end

/-- Model of Python's `json.loads`: parse one value and require that only
whitespace follows (otherwise Python raises "Extra data"). -/
def jsonParse (s : String) : Option JValue :=
  match parseValue (s.length + 1) s.data with
  | some (v, rest) => if skipWs rest = [] then some v else none
  | none => none

/-! ### A JSON writer (serialized form of a value) -/

/-- Decimal digit character. -/
def digitChar : Nat → Char
  | 0 => '0' | 1 => '1' | 2 => '2' | 3 => '3' | 4 => '4'
  | 5 => '5' | 6 => '6' | 7 => '7' | 8 => '8' | _ => '9'

/-- Hexadecimal digit character. -/
def hexDigit : Nat → Char
  | 0 => '0' | 1 => '1' | 2 => '2' | 3 => '3' | 4 => '4'
  | 5 => '5' | 6 => '6' | 7 => '7' | 8 => '8' | 9 => '9'
  | 10 => 'a' | 11 => 'b' | 12 => 'c' | 13 => 'd' | 14 => 'e' | _ => 'f'

/-- Decimal digits of `n`, most significant first (empty for `0`); the first
argument is fuel, always instantiated with a bound on `n`. -/
def dumpNatAux : Nat → Nat → List Char
  | 0, _ => []
  | fuel + 1, n => if n = 0 then [] else dumpNatAux fuel (n / 10) ++ [digitChar (n % 10)]

/-- Decimal representation of a natural number. -/
def dumpNat (n : Nat) : List Char :=
  if n = 0 then ['0'] else dumpNatAux n n

/-- Decimal representation of an integer. -/
def dumpInt (n : Int) : List Char :=
  if n < 0 then '-' :: dumpNat n.natAbs else dumpNat n.toNat

/-- Escape a string body for JSON output: quote and backslash get a
backslash escape, control characters a `\u00XX` escape, everything else is
emitted verbatim. -/
def escChars : List Char → List Char
  | [] => []
  | c :: cs =>
    (if c = '"' then ['\\', '"']
     else if c = '\\' then ['\\', '\\']
     else if c.toNat < 32 then
       ['\\', 'u', '0', '0', hexDigit (c.toNat / 16), hexDigit (c.toNat % 16)]
     else [c]) ++ escChars cs

mutual

/-- Serialized (compact) JSON form of a value. -/
def dumpChars : JValue → List Char
  | .null => "null".data
  | .bool true => "true".data
  | .bool false => "false".data
  | .num n => dumpInt n
  | .str s => '"' :: (escChars s.data ++ ['"'])
  | .arr vs => '[' :: (dumpElems vs ++ [']'])
  | .obj kvs => '\x7b' :: (dumpMembers kvs ++ ['\x7d'])

/-- Comma-separated serialized array elements. -/
def dumpElems : List JValue → List Char
  | [] => []
  | [v] => dumpChars v
  | v :: vs => dumpChars v ++ ',' :: dumpElems vs

/-- Comma-separated serialized object members. -/
def dumpMembers : List (String × JValue) → List Char
  | [] => []
  | [(k, v)] => '"' :: (escChars k.data ++ '"' :: ':' :: dumpChars v)
  | (k, v) :: kvs => ('"' :: (escChars k.data ++ '"' :: ':' :: dumpChars v)) ++ ',' :: dumpMembers kvs

end

/-! ### Data model of the service (from `llm.service.py`) -/

/-- `MODEL_FALLBACK_CHAIN` from `llm.service.py`. -/
def MODEL_FALLBACK_CHAIN : List String :=
  ["sonar-large-chat", "sonar-large-online", "llama-3.1-70b-versatile", "sonar-small-online"]

/-- Python truthiness of a string: nonempty. -/
def pyStrTruthy (s : String) : Bool := s != ""

/-- `LLMService._validate_json_response`: `json.loads` succeeds and the
top-level value is a dict. -/
def _validate_json_response (response : String) : Bool :=
  match jsonParse response with
  | some (JValue.obj _) => true
  | some _ => false
  | none => false

/-- Python `dict.get` on an association list built in insertion order with
duplicates kept; the last binding for a key wins, as in a Python dict built
by `json.loads`. -/
def jget : List (String × JValue) → String → Option JValue
  | [], _ => none
  | (k', v) :: kvs, k =>
    match jget kvs k with
    | some w => some w
    | none => if k' = k then some v else none

/-- One entry of the validated `suggested_fixes` list: the projection of a
reply element to the keys `fix`, `priority`, `impact`. -/
structure FixEntry where
  fix : JValue
  priority : JValue
  impact : JValue
deriving DecidableEq

/-- The dict returned by `LLMService.parse_ai_response`. -/
structure ParsedResponse where
  transformation_rules : List JValue
  error_analysis : String
  suggested_fixes : List FixEntry
deriving DecidableEq

/-- The `transformation_rules` coercion in `parse_ai_response`: a string is
wrapped in a one-element list; a falsy or non-list value is replaced by the
default; a nonempty list is kept as is. -/
def rulesOf : Option JValue → List JValue
  | some (JValue.str s) => [JValue.str s]
  | some (JValue.arr l) => if l.isEmpty then [JValue.str "No transformation rules generated"] else l
  | _ => [JValue.str "No transformation rules generated"]

/-- The `error_analysis` coercion in `parse_ai_response`: a falsy or
non-string value is replaced by the default. -/
def analysisOf : Option JValue → String
  | some (JValue.str s) => if s = "" then "No error analysis provided" else s
  | _ => "No error analysis provided"

/-- Element-wise validation of `suggested_fixes`: dicts are projected with
per-key defaults, bare strings are wrapped, other elements are dropped. -/
def fixEntryOf : JValue → Option FixEntry
  | JValue.obj kvs =>
    some ⟨(jget kvs "fix").getD (JValue.str "Unknown fix"),
          (jget kvs "priority").getD (JValue.str "medium"),
          (jget kvs "impact").getD (JValue.str "Unknown impact")⟩
  | JValue.str s => some ⟨JValue.str s, JValue.str "medium", JValue.str "General improvement"⟩
  | _ => none

/-- The `suggested_fixes` coercion in `parse_ai_response`. -/
def fixesOf : Option JValue → List FixEntry
  | some (JValue.arr l) =>
    if l.isEmpty then
      [⟨JValue.str "No specific fixes suggested", JValue.str "medium", JValue.str "Unknown"⟩]
    else l.filterMap fixEntryOf
  | _ => [⟨JValue.str "No specific fixes suggested", JValue.str "medium", JValue.str "Unknown"⟩]

/-- The result `parse_ai_response` returns from its `json.JSONDecodeError`
handler.  The embedding abstracts the interpolated exception text
`str(e)` away from the `error_analysis` message. -/
def jsonDecodeErrorResult : ParsedResponse :=
  ⟨[JValue.str "JSON parsing error in AI response"],
   "Failed to parse AI response as JSON",
   [⟨JValue.str "Check AI response format and prompt engineering", JValue.str "high",
     JValue.str "Ensure consistent JSON output from AI model"⟩]⟩

/-- `LLMService.parse_ai_response`.  The function only catches
`json.JSONDecodeError`; when `json.loads` succeeds with a non-dict top-level
value, the attribute access `structured_response.get` raises an uncaught
`AttributeError`, modelled here as `none`. -/
def parse_ai_response (answer : String) : Option ParsedResponse :=
  match jsonParse answer with
  | none => some jsonDecodeErrorResult
  | some (JValue.obj kvs) =>
    some ⟨rulesOf (jget kvs "transformation_rules"),
          analysisOf (jget kvs "error_analysis"),
          fixesOf (jget kvs "suggested_fixes")⟩
  | some _ => none

/-- JSON value of a validated fix entry, for serializing a parsed result. -/
def fixEntryToJson (f : FixEntry) : JValue :=
  JValue.obj [("fix", f.fix), ("priority", f.priority), ("impact", f.impact)]

/-- JSON value of a parsed result, for serializing it. -/
def parsedToJson (r : ParsedResponse) : JValue :=
  JValue.obj [("transformation_rules", JValue.arr r.transformation_rules),
              ("error_analysis", JValue.str r.error_analysis),
              ("suggested_fixes", JValue.arr (r.suggested_fixes.map fixEntryToJson))]

/-- Modelled from the spec: the "serialized form" of a NormalizedResult
(the source never serializes the parsed dict itself; the spec's idempotence
property refers to re-normalizing the JSON serialization of a result). -/
def serializeParsed (r : ParsedResponse) : String :=
  String.mk (dumpChars (parsedToJson r))

/-! ### The fallback orchestrator (from `llm.service.py`) -/

/-- Outcome of one `query_perplexity_model` call for one model: either a
normal return `(answer, error)` (the returned model name always equals the
requested one), or an exception propagating out of the call. -/
inductive InvokeResult where
  | ret (answer : Option String) (error : Option String) : InvokeResult
  | exn (e : String) : InvokeResult

/-- One attempt record appended by `query_with_fallback`. -/
structure Attempt where
  model : String
  success : Bool
  error : Option String
deriving DecidableEq

/-- The tuple returned by `query_with_fallback`. -/
structure FallbackResult where
  answer : Option String
  error : Option String
  usedModel : Option String
  attempts : List Attempt
deriving DecidableEq

/-- Python `str(x)` for an optional string (`None` prints as `None`). -/
def pyStrOfOpt : Option String → String
  | none => "None"
  | some s => s

/-- Python `repr` of an optional string as it appears inside the attempts
list rendering (the model names and error messages in scope contain no
quotes, so plain single-quoting is the faithful rendering). -/
def pyReprOptStr : Option String → String
  | none => "None"
  | some s => "\x27" ++ s ++ "\x27"

/-- Python `repr` of one attempt dict. -/
def reprAttempt (a : Attempt) : String :=
  "\x7b\x27model\x27: \x27" ++ a.model ++ "\x27, \x27success\x27: " ++
    (if a.success then "True" else "False") ++ ", \x27error\x27: " ++ pyReprOptStr a.error ++ "\x7d"

/-- Comma-space separated attempt renderings. -/
def reprAttemptList : List Attempt → String
  | [] => ""
  | [a] => reprAttempt a
  | a :: rest => reprAttempt a ++ ", " ++ reprAttemptList rest

/-- Python `repr` of the attempts list. -/
def reprAttempts (l : List Attempt) : String :=
  "[" ++ reprAttemptList l ++ "]"

/-- The aggregated chain-exhaustion message of `query_with_fallback`. -/
def allFailedMsg (attempts : List Attempt) (lastError : Option String) : String :=
  "All models failed. Attempts: " ++ reprAttempts attempts ++ ". Last error: " ++
    pyStrOfOpt lastError

/-- The `last_error` text recorded when a model returns non-JSON output. -/
def invalidJsonMsg (m : String) : String :=
  "Model " ++ m ++ " returned invalid JSON format"

/-- The loop of `query_with_fallback` over the remaining model chain,
carrying the accumulated attempts, the `last_error` variable, and (as
instrumentation) the list of models invoked so far. -/
def queryFallbackGo (invoker : String → InvokeResult) :
    List String → List Attempt → Option String → List String → FallbackResult × List String
  | [], attempts, lastError, invoked =>
    (⟨none, some (allFailedMsg attempts lastError), none, attempts⟩, invoked)
  | m :: rest, attempts, lastError, invoked =>
    match invoker m with
    | .ret answer error =>
      match answer with
      | some a =>
        if pyStrTruthy a && _validate_json_response a then
          (⟨some a, none, some m, attempts ++ [⟨m, (some a).isSome, error⟩]⟩, invoked ++ [m])
        else if pyStrTruthy a then
          queryFallbackGo invoker rest (attempts ++ [⟨m, (some a).isSome, error⟩])
            (some (invalidJsonMsg m)) (invoked ++ [m])
        else
          queryFallbackGo invoker rest (attempts ++ [⟨m, (some a).isSome, error⟩])
            lastError (invoked ++ [m])
      | none =>
        queryFallbackGo invoker rest (attempts ++ [⟨m, (none : Option String).isSome, error⟩])
          lastError (invoked ++ [m])
    | .exn e =>
      queryFallbackGo invoker rest (attempts ++ [⟨m, false, some e⟩]) (some e) (invoked ++ [m])

/-- The model chain built by `query_with_fallback`: the primary model first,
then the fallback catalog with the primary filtered out. -/
def model_chain (primary : String) : List String :=
  primary :: MODEL_FALLBACK_CHAIN.filter (fun m => m != primary)

/-- `LLMService.query_with_fallback`, abstracted over the per-model
invocation outcome; the second component is the instrumented list of models
actually invoked, in order. -/
def query_with_fallback (invoker : String → InvokeResult) (primary : String) :
    FallbackResult × List String :=
  queryFallbackGo invoker (model_chain primary) [] none []

/-! ### Construction checks and error-sink forwarding -/

/-- The service state built by `LLMService.__init__`. -/
structure LLMServiceState where
  api_key : String
  primary_model : String
deriving DecidableEq

/-- `LLMService.__init__`: raises `ValueError` when the API key is falsy
(the empty string). -/
def LLMService_init (api_key primary_model : String) : Except String LLMServiceState :=
  if api_key = "" then Except.error "Perplexity API key is required"
  else Except.ok ⟨api_key, primary_model⟩

/-- `create_llm_service`: reads the environment (modelled as the two
optional variable values), raises when the API key variable is absent or
empty, and otherwise constructs the service with the primary model
defaulting to `"sonar-large-chat"`. -/
def create_llm_service (envApiKey envModel : Option String) : Except String LLMServiceState :=
  match envApiKey with
  | none => Except.error "PERPLEXITY_API_KEY environment variable is required"
  | some k =>
    if k = "" then Except.error "PERPLEXITY_API_KEY environment variable is required"
    else LLMService_init k (envModel.getD "sonar-large-chat")

/-- A record written to the Error Sink (`ErrorHandler.log_error`). -/
structure SinkRecord where
  workflowId : Int
  errorType : String
  message : String
deriving DecidableEq

/-- Python truthiness of `Optional[int]`: `None` and `0` are falsy. -/
def pyTruthyOptInt : Option Int → Bool
  | none => false
  | some w => w != 0

/-- The `except` branch of `LLMService.query_perplexity_model`: the value it
returns, paired with the sink records it forwards (guarded by
`if workflow_id:`). -/
def query_perplexity_model_failure (model_name e : String) (workflow_id : Option Int) :
    (Option String × Option String × String) × List SinkRecord :=
  ((none, some ("Perplexity API error with model " ++ model_name ++ ": " ++ e), model_name),
   if pyTruthyOptInt workflow_id then
     [⟨workflow_id.getD 0, "API_Error",
       "Perplexity API error with model " ++ model_name ++ ": " ++ e⟩]
   else [])

/-- The `except` branch of the module-level `query_perplexity_model` in
`main.py`, with the same `if workflow_id:` guard. -/
def main_query_perplexity_model_failure (e : String) (workflow_id : Option Int) :
    (Option String × Option String) × List SinkRecord :=
  ((none, some ("Perplexity API error: " ++ e)),
   if pyTruthyOptInt workflow_id then
     [⟨workflow_id.getD 0, "API_Error", "Perplexity API error: " ++ e⟩]
   else [])

/-! ### Helper notions and lemmas about the orchestrator -/

/-- An invocation outcome the orchestrator accepts: an answer was returned,
it is nonempty, and it passes `_validate_json_response`. -/
def acceptableResult : InvokeResult → Bool
  | .ret (some a) _ => pyStrTruthy a && _validate_json_response a
  | .ret none _ => false
  | .exn _ => false

/-- The attempt record the orchestrator appends for model `m` with
invocation outcome `r`. -/
def attemptFor (m : String) : InvokeResult → Attempt
  | .ret ans err => ⟨m, ans.isSome, err⟩
  | .exn e => ⟨m, false, some e⟩

/-- How one non-accepted invocation outcome updates the `last_error`
variable. -/
def stepLastError (m : String) : InvokeResult → Option String → Option String
  | .ret (some a) _, le => if pyStrTruthy a then some (invalidJsonMsg m) else le
  | .ret none _, le => le
  | .exn e, _ => some e

/-- The `last_error` value after a run of non-accepted models. -/
def lastErrorAfter (invoker : String → InvokeResult) : List String → Option String → Option String
  | [], le => le
  | m :: ms, le => lastErrorAfter invoker ms (stepLastError m (invoker m) le)

theorem attemptFor_model (m : String) (r : InvokeResult) : (attemptFor m r).model = m := by
  cases r <;> rfl

theorem queryFallbackGo_nil (invoker : String → InvokeResult) (attempts : List Attempt)
    (lastError : Option String) (invoked : List String) :
    queryFallbackGo invoker [] attempts lastError invoked =
      (⟨none, some (allFailedMsg attempts lastError), none, attempts⟩, invoked) := rfl

theorem queryFallbackGo_success (invoker : String → InvokeResult) (m : String)
    (rest : List String) (attempts : List Attempt) (lastError : Option String)
    (invoked : List String) (a : String) (err : Option String)
    (h : invoker m = .ret (some a) err)
    (hacc : (pyStrTruthy a && _validate_json_response a) = true) :
    queryFallbackGo invoker (m :: rest) attempts lastError invoked =
      (⟨some a, none, some m, attempts ++ [⟨m, true, err⟩]⟩, invoked ++ [m]) := by
  simp [queryFallbackGo, h, hacc]

theorem queryFallbackGo_skips (invoker : String → InvokeResult) :
    ∀ (pre rest : List String) (attempts : List Attempt) (lastError : Option String)
      (invoked : List String),
      (∀ m ∈ pre, acceptableResult (invoker m) = false) →
      queryFallbackGo invoker (pre ++ rest) attempts lastError invoked =
        queryFallbackGo invoker rest
          (attempts ++ pre.map (fun m => attemptFor m (invoker m)))
          (lastErrorAfter invoker pre lastError)
          (invoked ++ pre)
  | [], rest, attempts, lastError, invoked, _ => by simp [lastErrorAfter]
  | m :: pre, rest, attempts, lastError, invoked, hpre => by
    have hm : acceptableResult (invoker m) = false := hpre m (by simp)
    have hpre' : ∀ m' ∈ pre, acceptableResult (invoker m') = false := by
      intro m' hm'
      exact hpre m' (by simp [hm'])
    cases h : invoker m with
    | ret answer error =>
      cases answer with
      | some a =>
        have hacc : (pyStrTruthy a && _validate_json_response a) = false := by
          rw [h] at hm
          simpa [acceptableResult] using hm
        by_cases ht : pyStrTruthy a = true
        · have hval : _validate_json_response a = false := by
            rw [ht, Bool.true_and] at hacc
            exact hacc
          have step := queryFallbackGo_skips invoker pre rest
            (attempts ++ [⟨m, (some a).isSome, error⟩]) (some (invalidJsonMsg m))
            (invoked ++ [m]) hpre'
          rw [List.cons_append]
          simp only [queryFallbackGo, h, ht, hval, Bool.true_and, Bool.false_eq_true,
            if_false, if_true]
          rw [step]
          simp [lastErrorAfter, stepLastError, h, ht, attemptFor, List.append_assoc]
        · have ht' : pyStrTruthy a = false := by simpa using ht
          have step := queryFallbackGo_skips invoker pre rest
            (attempts ++ [⟨m, (some a).isSome, error⟩]) lastError (invoked ++ [m]) hpre'
          rw [List.cons_append]
          simp only [queryFallbackGo, h, ht', Bool.false_and, Bool.false_eq_true, if_false]
          rw [step]
          simp [lastErrorAfter, stepLastError, h, ht', attemptFor, List.append_assoc]
      | none =>
        have step := queryFallbackGo_skips invoker pre rest
          (attempts ++ [⟨m, (none : Option String).isSome, error⟩]) lastError
          (invoked ++ [m]) hpre'
        rw [List.cons_append]
        simp only [queryFallbackGo, h]
        rw [step]
        simp [lastErrorAfter, stepLastError, h, attemptFor, List.append_assoc]
    | exn e =>
      have step := queryFallbackGo_skips invoker pre rest
        (attempts ++ [⟨m, false, some e⟩]) (some e) (invoked ++ [m]) hpre'
      rw [List.cons_append]
      simp only [queryFallbackGo, h]
      rw [step]
      simp [lastErrorAfter, stepLastError, h, attemptFor, List.append_assoc]

theorem lastErrorAfter_of_ret_none (invoker : String → InvokeResult) :
    ∀ (ms : List String) (le : Option String),
      (∀ m ∈ ms, ∃ e, invoker m = .ret none e) →
      lastErrorAfter invoker ms le = le
  | [], _, _ => rfl
  | m :: ms, le, h => by
    obtain ⟨e, he⟩ := h m (by simp)
    have := lastErrorAfter_of_ret_none invoker ms le (fun m' hm' => h m' (by simp [hm']))
    simp [lastErrorAfter, stepLastError, he]
    exact lastErrorAfter_of_ret_none invoker ms le (fun m' hm' => h m' (by simp [hm']))

/-! ### Substring containment in the aggregated error message -/

theorem strInfix_appendR (x A B : String) (h : x.data <:+: A.data) :
    x.data <:+: (A ++ B).data := by
  rw [String.data_append]
  exact h.trans (List.prefix_append A.data B.data).isInfix

theorem strInfix_appendL (x A B : String) (h : x.data <:+: B.data) :
    x.data <:+: (A ++ B).data := by
  rw [String.data_append]
  exact h.trans (List.suffix_append A.data B.data).isInfix

theorem reprAttempt_contains_model (a : Attempt) :
    a.model.data <:+: (reprAttempt a).data := by
  unfold reprAttempt
  apply strInfix_appendR
  apply strInfix_appendR
  apply strInfix_appendR
  apply strInfix_appendR
  apply strInfix_appendR
  apply strInfix_appendL
  exact List.infix_rfl

theorem reprAttempt_contains_error (a : Attempt) (e : String) (h : a.error = some e) :
    e.data <:+: (reprAttempt a).data := by
  unfold reprAttempt
  rw [h]
  apply strInfix_appendR
  apply strInfix_appendL
  show e.data <:+: (pyReprOptStr (some e)).data
  unfold pyReprOptStr
  apply strInfix_appendR
  apply strInfix_appendL
  exact List.infix_rfl

theorem reprAttemptList_contains :
    ∀ (l : List Attempt), ∀ a ∈ l, (reprAttempt a).data <:+: (reprAttemptList l).data
  | [], a, ha => by simp at ha
  | [x], a, ha => by
    have : a = x := by simpa using ha
    subst this
    exact List.infix_rfl
  | x :: y :: rest, a, ha => by
    rcases (by simpa using ha : a = x ∨ a = y ∨ a ∈ rest) with h | h
    · subst h
      show (reprAttempt a).data <:+: (reprAttempt a ++ ", " ++ reprAttemptList (y :: rest)).data
      apply strInfix_appendR
      apply strInfix_appendR
      exact List.infix_rfl
    · have hmem : a ∈ y :: rest := by simpa using h
      show (reprAttempt a).data <:+: (reprAttempt x ++ ", " ++ reprAttemptList (y :: rest)).data
      apply strInfix_appendL
      exact reprAttemptList_contains (y :: rest) a hmem

theorem allFailedMsg_contains_model (attempts : List Attempt) (lastError : Option String)
    (a : Attempt) (ha : a ∈ attempts) :
    a.model.data <:+: (allFailedMsg attempts lastError).data := by
  unfold allFailedMsg reprAttempts
  apply strInfix_appendR
  apply strInfix_appendR
  apply strInfix_appendL
  apply strInfix_appendR
  apply strInfix_appendL
  exact (reprAttempt_contains_model a).trans (reprAttemptList_contains attempts a ha)

theorem allFailedMsg_contains_error (attempts : List Attempt) (lastError : Option String)
    (a : Attempt) (ha : a ∈ attempts) (e : String) (he : a.error = some e) :
    e.data <:+: (allFailedMsg attempts lastError).data := by
  unfold allFailedMsg reprAttempts
  apply strInfix_appendR
  apply strInfix_appendR
  apply strInfix_appendL
  apply strInfix_appendR
  apply strInfix_appendL
  exact (reprAttempt_contains_error a e he).trans (reprAttemptList_contains attempts a ha)

/-! ### The claims -/

/-- Claim C1: for every prompt and fallback chain, if model k (1-indexed) is
the first whose invocation returns a non-empty answer passing structural
validation — here the chain splits as `pre ++ m :: post` with no model of
`pre` accepted and `m` returning a truthy, valid answer `a`, so
k = `pre.length + 1` — then `query_with_fallback` returns that answer, no
error, model `m`'s name, and exactly k attempts, which are the first k
chain entries in chain order; the invocation log shows models after `m`
are never invoked. -/
theorem claim_C1 (invoker : String → InvokeResult) (primary : String)
    (pre post : List String) (m a : String) (err : Option String)
    (hchain : model_chain primary = pre ++ m :: post)
    (hpre : ∀ m' ∈ pre, acceptableResult (invoker m') = false)
    (hm : invoker m = .ret (some a) err)
    (hvalid : (pyStrTruthy a && _validate_json_response a) = true) :
    query_with_fallback invoker primary =
      (⟨some a, none, some m,
        (pre.map (fun m' => attemptFor m' (invoker m'))) ++ [⟨m, true, err⟩]⟩, pre ++ [m]) ∧
    (query_with_fallback invoker primary).1.attempts.map Attempt.model = pre ++ [m] ∧
    (query_with_fallback invoker primary).1.attempts.length = pre.length + 1 ∧
    (model_chain primary).take (pre.length + 1) = pre ++ [m] ∧
    (query_with_fallback invoker primary).2 = pre ++ [m] := by
  have key : query_with_fallback invoker primary =
      (⟨some a, none, some m,
        (pre.map (fun m' => attemptFor m' (invoker m'))) ++ [⟨m, true, err⟩]⟩, pre ++ [m]) := by
    unfold query_with_fallback
    rw [hchain, queryFallbackGo_skips invoker pre (m :: post) [] none [] hpre,
      queryFallbackGo_success invoker m post _ _ _ a err hm hvalid]
    simp
  refine ⟨key, ?_, ?_, ?_, ?_⟩
  · rw [key]
    simp only [List.map_append, List.map_map, List.map_cons, List.map_nil]
    congr 1
    have : List.map (Attempt.model ∘ fun m' => attemptFor m' (invoker m')) pre =
        List.map (fun m' => m') pre :=
      List.map_congr_left (fun m' _ => attemptFor_model m' (invoker m'))
    rw [this]
    exact List.map_id pre
  · rw [key]
    simp
  · rw [hchain]
    simp [List.take_append_eq_append_take]
  · rw [key]

/-- Invoker for the C1 witness: the primary model fails with a transport
error, the second model answers with a valid (empty) JSON object. -/
def cexInvoker1 : String → InvokeResult := fun m =>
  if m = "sonar-large-online" then InvokeResult.ret (some "\x7b\x7d") none
  else InvokeResult.ret none (some "connection refused")

/-- Witness for claim C1, at the catalog chain with k = 2. -/
theorem claim_C1_witness :
    query_with_fallback cexInvoker1 "sonar-large-chat" =
      (⟨some "\x7b\x7d", none, some "sonar-large-online",
        [⟨"sonar-large-chat", false, some "connection refused"⟩,
         ⟨"sonar-large-online", true, none⟩]⟩,
       ["sonar-large-chat", "sonar-large-online"]) ∧
    (query_with_fallback cexInvoker1 "sonar-large-chat").1.attempts.map Attempt.model =
      ["sonar-large-chat", "sonar-large-online"] ∧
    (query_with_fallback cexInvoker1 "sonar-large-chat").1.attempts.length = 2 ∧
    (model_chain "sonar-large-chat").take 2 = ["sonar-large-chat", "sonar-large-online"] ∧
    (query_with_fallback cexInvoker1 "sonar-large-chat").2 =
      ["sonar-large-chat", "sonar-large-online"] :=
  claim_C1 cexInvoker1 "sonar-large-chat" ["sonar-large-chat"]
    ["llama-3.1-70b-versatile", "sonar-small-online"] "sonar-large-online" "\x7b\x7d" none
    rfl (by intro m' hm'; simp at hm'; subst hm'; decide) rfl (by decide)

/-- Claim C2: for every chain and invoker where every model's invocation
returns no answer and an error, `query_with_fallback` returns no answer, no
used model, one failed attempt per chain model in chain order, and an
aggregated message containing every attempted model's name and every
(hence the last) per-model error. -/
theorem claim_C2 (invoker : String → InvokeResult) (primary : String) (errf : String → String)
    (hall : ∀ m ∈ model_chain primary, invoker m = .ret none (some (errf m))) :
    (query_with_fallback invoker primary).1.answer = none ∧
    (query_with_fallback invoker primary).1.usedModel = none ∧
    (query_with_fallback invoker primary).1.attempts =
      (model_chain primary).map (fun m => ⟨m, false, some (errf m)⟩) ∧
    (query_with_fallback invoker primary).1.attempts.length = (model_chain primary).length ∧
    ∃ msg, (query_with_fallback invoker primary).1.error = some msg ∧
      ∀ m ∈ model_chain primary, m.data <:+: msg.data ∧ (errf m).data <:+: msg.data := by
  have hacc : ∀ m ∈ model_chain primary, acceptableResult (invoker m) = false := by
    intro m hm
    rw [hall m hm]
    rfl
  have hmap : (model_chain primary).map (fun m => attemptFor m (invoker m)) =
      (model_chain primary).map (fun m => (⟨m, false, some (errf m)⟩ : Attempt)) :=
    List.map_congr_left (fun m hm => by rw [hall m hm]; rfl)
  have key : query_with_fallback invoker primary =
      (⟨none,
        some (allFailedMsg ((model_chain primary).map (fun m => attemptFor m (invoker m))) none),
        none, (model_chain primary).map (fun m => attemptFor m (invoker m))⟩,
       model_chain primary) := by
    unfold query_with_fallback
    have hskip := queryFallbackGo_skips invoker (model_chain primary) [] [] none [] hacc
    rw [List.append_nil] at hskip
    rw [hskip, lastErrorAfter_of_ret_none invoker _ none
      (fun m hm => ⟨some (errf m), hall m hm⟩)]
    simp [queryFallbackGo_nil]
  refine ⟨by rw [key], by rw [key], by rw [key]; exact hmap, by rw [key]; simp, ?_⟩
  refine ⟨allFailedMsg ((model_chain primary).map (fun m => attemptFor m (invoker m))) none,
    by rw [key], ?_⟩
  intro m hm
  have hmem : (⟨m, false, some (errf m)⟩ : Attempt) ∈
      (model_chain primary).map (fun m => attemptFor m (invoker m)) := by
    rw [hmap]
    exact List.mem_map_of_mem _ hm
  constructor
  · exact allFailedMsg_contains_model _ none ⟨m, false, some (errf m)⟩ hmem
  · exact allFailedMsg_contains_error _ none ⟨m, false, some (errf m)⟩ hmem (errf m) rfl

/-- Invoker for the C2 witness: every model fails with a transport error. -/
def cexInvoker2 : String → InvokeResult := fun m =>
  InvokeResult.ret none (some ("Perplexity API error with model " ++ m ++ ": connection refused"))

/-- The per-model error text of the C2 witness invoker. -/
def cexErrf2 : String → String := fun m =>
  "Perplexity API error with model " ++ m ++ ": connection refused"

/-- Witness for claim C2, at the catalog chain with all four models
refusing the connection. -/
theorem claim_C2_witness :
    (query_with_fallback cexInvoker2 "sonar-large-chat").1.answer = none ∧
    (query_with_fallback cexInvoker2 "sonar-large-chat").1.usedModel = none ∧
    (query_with_fallback cexInvoker2 "sonar-large-chat").1.attempts =
      (model_chain "sonar-large-chat").map (fun m => ⟨m, false, some (cexErrf2 m)⟩) ∧
    (query_with_fallback cexInvoker2 "sonar-large-chat").1.attempts.length =
      (model_chain "sonar-large-chat").length ∧
    ∃ msg, (query_with_fallback cexInvoker2 "sonar-large-chat").1.error = some msg ∧
      ∀ m ∈ model_chain "sonar-large-chat",
        m.data <:+: msg.data ∧ (cexErrf2 m).data <:+: msg.data :=
  claim_C2 cexInvoker2 "sonar-large-chat" cexErrf2 (fun _ _ => rfl)

/-- Claim C3 (amended): when a model's invocation returns a non-empty answer
that fails structural validation, the orchestrator appends an attempt whose
success flag is `answer.isSome` — i.e. `true`, not `false` as the claim
states — whose `error` field is the invoker's error (not the invalid-format
reason), sets the chain's `last_error` to
"Model <name> returned invalid JSON format", and continues with the next
model instead of aborting. -/
theorem claim_C3_amended (invoker : String → InvokeResult) (m : String) (rest : List String)
    (attempts : List Attempt) (lastError : Option String) (invoked : List String)
    (a : String) (err : Option String)
    (hinv : invoker m = .ret (some a) err)
    (hne : pyStrTruthy a = true)
    (hbad : _validate_json_response a = false) :
    queryFallbackGo invoker (m :: rest) attempts lastError invoked =
      queryFallbackGo invoker rest (attempts ++ [⟨m, (some a).isSome, err⟩])
        (some (invalidJsonMsg m)) (invoked ++ [m]) ∧
    ((⟨m, (some a).isSome, err⟩ : Attempt)).success = true := by
  refine ⟨?_, rfl⟩
  simp only [queryFallbackGo, hinv, hne, hbad, Bool.true_and, Bool.false_eq_true, if_false,
    if_true]

/-- Invoker for the C3 theorems: every model answers with a non-empty reply
that is valid JSON but not an object. -/
def cexInvoker3 : String → InvokeResult := fun _ => InvokeResult.ret (some "[1,2,3]") none

set_option maxRecDepth 8192 in
/-- Claim C3 counterexample: with every model returning the non-empty,
structurally invalid answer "[1,2,3]", every recorded attempt has
success = true and error = none, contradicting the claimed success = false
and recorded reason. -/
theorem claim_C3_counterexample :
    pyStrTruthy "[1,2,3]" = true ∧
    _validate_json_response "[1,2,3]" = false ∧
    (query_with_fallback cexInvoker3 "sonar-large-chat").1.attempts.map Attempt.success =
      [true, true, true, true] ∧
    (query_with_fallback cexInvoker3 "sonar-large-chat").1.attempts.map Attempt.error =
      [none, none, none, none] := by
  decide

set_option maxRecDepth 8192 in
/-- Witness for the amended claim C3, at the head of the catalog chain. -/
theorem claim_C3_amended_witness :
    queryFallbackGo cexInvoker3
        ["sonar-large-chat", "sonar-large-online", "llama-3.1-70b-versatile",
         "sonar-small-online"] [] none [] =
      queryFallbackGo cexInvoker3
        ["sonar-large-online", "llama-3.1-70b-versatile", "sonar-small-online"]
        [⟨"sonar-large-chat", true, none⟩]
        (some (invalidJsonMsg "sonar-large-chat")) ["sonar-large-chat"] ∧
    ((⟨"sonar-large-chat", true, none⟩ : Attempt)).success = true :=
  claim_C3_amended cexInvoker3 "sonar-large-chat"
    ["sonar-large-online", "llama-3.1-70b-versatile", "sonar-small-online"] [] none []
    "[1,2,3]" none rfl (by decide) (by decide)

/-- Claim C4: the model chain is the primary model followed by the fallback
catalog with the primary filtered out, in catalog order; for the catalog
primary "sonar-large-chat" the chain is exactly the 4-element catalog; the
primary occurs exactly once, the tail is a catalog sublist (order
preserved), and the tail holds exactly the catalog models other than the
primary. -/
theorem claim_C4 :
    model_chain "sonar-large-chat" =
      ["sonar-large-chat", "sonar-large-online", "llama-3.1-70b-versatile",
       "sonar-small-online"] ∧
    model_chain "sonar-large-chat" = MODEL_FALLBACK_CHAIN ∧
    (∀ primary, model_chain primary =
      primary :: MODEL_FALLBACK_CHAIN.filter (fun m => m != primary)) ∧
    (∀ primary, (model_chain primary).count primary = 1) ∧
    (∀ primary, primary ∉ (model_chain primary).tail) ∧
    (∀ primary, (model_chain primary).tail.Sublist MODEL_FALLBACK_CHAIN) ∧
    (∀ primary m, m ∈ (model_chain primary).tail ↔
      (m ∈ MODEL_FALLBACK_CHAIN ∧ m ≠ primary)) := by
  have hnotmem : ∀ p : String, p ∉ MODEL_FALLBACK_CHAIN.filter (fun m => m != p) := by
    intro p h
    have := List.of_mem_filter h
    simp at this
  refine ⟨by decide, by decide, fun _ => rfl, ?_, ?_, ?_, ?_⟩
  · intro p
    show (p :: MODEL_FALLBACK_CHAIN.filter (fun m => m != p)).count p = 1
    rw [List.count_cons_self, List.count_eq_zero.mpr (hnotmem p)]
  · intro p
    exact hnotmem p
  · intro p
    show (MODEL_FALLBACK_CHAIN.filter (fun m => m != p)).Sublist MODEL_FALLBACK_CHAIN
    exact List.filter_sublist MODEL_FALLBACK_CHAIN
  · intro p m
    show m ∈ MODEL_FALLBACK_CHAIN.filter (fun m => m != p) ↔ _
    simp [List.mem_filter]

/-- Claim C5 (amended): `parse_ai_response` returns a result exactly when
`json.loads` fails (handled by the `JSONDecodeError` branch) or returns a
top-level object; when `json.loads` succeeds with a non-object top level,
the `.get` attribute access raises an uncaught `AttributeError` (modelled
as `none`), so the function is not exception-free for every input. -/
theorem claim_C5_amended (s : String) :
    (parse_ai_response s).isSome = true ↔
      (jsonParse s = none ∨ ∃ kvs, jsonParse s = some (JValue.obj kvs)) := by
  unfold parse_ai_response
  cases h : jsonParse s with
  | none => simp
  | some v => cases v <;> simp

/-- Claim C5 counterexample: "[1,2,3]" parses successfully as JSON (an
array, not an object), and `parse_ai_response` raises (returns no result)
instead of returning a populated result or the parse-failure variant. -/
theorem claim_C5_counterexample :
    jsonParse "[1,2,3]" = some (JValue.arr [JValue.num 1, JValue.num 2, JValue.num 3]) ∧
    parse_ai_response "[1,2,3]" = none := by
  decide

/-- Claim C6: `_validate_json_response` holds exactly when the input parses
as JSON with a top-level object, and in particular rejects "not json" and
"[1,2,3]" while accepting the empty object. -/
theorem claim_C6 :
    (∀ s : String, _validate_json_response s = true ↔
      ∃ kvs, jsonParse s = some (JValue.obj kvs)) ∧
    _validate_json_response "not json" = false ∧
    _validate_json_response "[1,2,3]" = false ∧
    _validate_json_response "\x7b\x7d" = true := by
  refine ⟨?_, by decide, by decide, by decide⟩
  intro s
  unfold _validate_json_response
  cases h : jsonParse s with
  | none => simp
  | some v => cases v <;> simp

set_option maxRecDepth 8192 in
/-- Claim C7: normalizing the reply with a single-string rules field, an
empty analysis string and an empty fixes list wraps the string, substitutes
the default analysis, and substitutes the one-element default fixes list. -/
theorem claim_C7 :
    parse_ai_response
        "\x7b\"transformation_rules\":\"fix X\",\"error_analysis\":\"\",\"suggested_fixes\":[]\x7d" =
      some ⟨[JValue.str "fix X"], "No error analysis provided",
            [⟨JValue.str "No specific fixes suggested", JValue.str "medium",
              JValue.str "Unknown"⟩]⟩ := by
  decide

/-- Claim C9: constructing the service without a provider API key fails:
`LLMService.__init__` raises on an empty key, `create_llm_service` raises
when the environment variable is absent or empty, and any nonempty key
constructs successfully (so the check happens at construction time only). -/
theorem claim_C9 :
    (∀ pm, LLMService_init "" pm = Except.error "Perplexity API key is required") ∧
    (∀ em, create_llm_service none em =
      Except.error "PERPLEXITY_API_KEY environment variable is required") ∧
    (∀ em, create_llm_service (some "") em =
      Except.error "PERPLEXITY_API_KEY environment variable is required") ∧
    (∀ k pm, LLMService_init k pm = Except.ok ⟨k, pm⟩ ∨ k = "") := by
  refine ⟨fun pm => rfl, fun em => rfl, fun em => rfl, ?_⟩
  intro k pm
  by_cases h : k = ""
  · exact Or.inr h
  · left
    simp [LLMService_init, h]

/-- Claim C10: the error-sink forwarding in the `except` branches of both
`query_perplexity_model` implementations happens exactly when the workflow
id is truthy, so id 0 is treated like an absent id and nothing is
forwarded. -/
theorem claim_C10 :
    (∀ m e, (query_perplexity_model_failure m e (some 0)).2 = [] ∧
      (query_perplexity_model_failure m e none).2 = []) ∧
    (∀ m e w, (query_perplexity_model_failure m e (some w)).2 =
      if w = 0 then []
      else [⟨w, "API_Error", "Perplexity API error with model " ++ m ++ ": " ++ e⟩]) ∧
    (∀ e, (main_query_perplexity_model_failure e (some 0)).2 = [] ∧
      (main_query_perplexity_model_failure e none).2 = []) ∧
    (∀ e w, (main_query_perplexity_model_failure e (some w)).2 =
      if w = 0 then [] else [⟨w, "API_Error", "Perplexity API error: " ++ e⟩]) := by
  refine ⟨fun m e => ⟨rfl, rfl⟩, ?_, fun e => ⟨rfl, rfl⟩, ?_⟩
  · intro m e w
    by_cases h : w = 0
    · subst h
      rfl
    · simp [query_perplexity_model_failure, pyTruthyOptInt, h]
  · intro e w
    by_cases h : w = 0
    · subst h
      rfl
    · simp [main_query_perplexity_model_failure, pyTruthyOptInt, h]

/-! ### Round-trip of the JSON writer through the reader -/

/-- True when the input does not begin with a decimal digit (so a maximal
digit run ending immediately before it is complete). -/
def headNotDigit : List Char → Bool
  | [] => true
  | c :: _ => !(isDigitChar c)

/-- The value of a digit run folded onto an accumulator. -/
def foldDigits (acc : Nat) (ds : List Char) : Nat :=
  ds.foldl (fun a c => a * 10 + (c.toNat - 48)) acc

theorem char_ne_of_toNat_ne {a b : Char} (h : a.toNat ≠ b.toNat) : a ≠ b :=
  fun he => h (he ▸ rfl)

theorem isDigitChar_bounds {c : Char} (h : isDigitChar c = true) :
    48 ≤ c.toNat ∧ c.toNat ≤ 57 := by
  simpa [isDigitChar] using h

theorem digitChar_toNat {d : Nat} (h : d < 10) : (digitChar d).toNat = 48 + d := by
  interval_cases d <;> rfl

theorem isDigitChar_digitChar {d : Nat} (h : d < 10) : isDigitChar (digitChar d) = true := by
  interval_cases d <;> decide

theorem parseDigits_append : ∀ (ds rest : List Char) (acc : Nat),
    (∀ d ∈ ds, isDigitChar d = true) →
    parseDigits (ds ++ rest) acc = parseDigits rest (foldDigits acc ds)
  | [], rest, acc, _ => rfl
  | d :: ds, rest, acc, h => by
    have hd : isDigitChar d = true := h d (by simp)
    simp only [List.cons_append, parseDigits, hd, if_true]
    exact parseDigits_append ds rest _ (fun x hx => h x (by simp [hx]))

theorem parseDigits_stop (rest : List Char) (acc : Nat) (h : headNotDigit rest = true) :
    parseDigits rest acc = (acc, rest) := by
  cases rest with
  | nil => rfl
  | cons c cs =>
    have hc : isDigitChar c = false := by simpa [headNotDigit] using h
    simp [parseDigits, hc]

theorem dumpNatAux_zero : ∀ fuel, dumpNatAux fuel 0 = []
  | 0 => rfl
  | fuel + 1 => by simp [dumpNatAux]

theorem dumpNatAux_digits : ∀ (fuel n : Nat), n ≤ fuel →
    ∀ d ∈ dumpNatAux fuel n, isDigitChar d = true
  | 0, n, h => by
    have : n = 0 := by omega
    subst this
    simp [dumpNatAux]
  | fuel + 1, n, h => by
    by_cases hn : n = 0
    · subst hn
      simp [dumpNatAux]
    · have hdiv : n / 10 ≤ fuel := by
        have := Nat.div_lt_self (Nat.pos_of_ne_zero hn) (by omega : 1 < 10)
        omega
      intro d hd
      simp only [dumpNatAux, hn, if_false, List.mem_append, List.mem_singleton] at hd
      rcases hd with hd | hd
      · exact dumpNatAux_digits fuel (n / 10) hdiv d hd
      · subst hd
        exact isDigitChar_digitChar (Nat.mod_lt n (by omega))

theorem foldDigits_dumpNatAux : ∀ (fuel n acc : Nat), n ≤ fuel →
    foldDigits acc (dumpNatAux fuel n) = acc * 10 ^ (dumpNatAux fuel n).length + n
  | 0, n, acc, h => by
    have : n = 0 := by omega
    subst this
    simp [dumpNatAux, foldDigits]
  | fuel + 1, n, acc, h => by
    by_cases hn : n = 0
    · subst hn
      simp [dumpNatAux, foldDigits]
    · have hdiv : n / 10 ≤ fuel := by
        have := Nat.div_lt_self (Nat.pos_of_ne_zero hn) (by omega : 1 < 10)
        omega
      have IH := foldDigits_dumpNatAux fuel (n / 10) acc hdiv
      have hdm : n / 10 * 10 + n % 10 = n := by omega
      have hdig : (digitChar (n % 10)).toNat - 48 = n % 10 := by
        rw [digitChar_toNat (Nat.mod_lt n (by omega))]
        omega
      unfold foldDigits at IH ⊢
      simp only [dumpNatAux, hn, if_false, List.foldl_append, List.foldl_cons, List.foldl_nil,
        List.length_append, List.length_cons, List.length_nil]
      rw [IH, hdig]
      have final : ∀ (L q r : Nat), q * 10 + r = n →
          (acc * 10 ^ L + q) * 10 + r = acc * 10 ^ (L + 1) + n := by
        intro L q r hqr
        rw [← hqr, pow_succ]
        ring
      exact final _ _ _ hdm

theorem dumpNatAux_head : ∀ (fuel n : Nat), 0 < n → n ≤ fuel →
    ∃ d ds, dumpNatAux fuel n = d :: ds ∧ isDigitChar d = true ∧ d ≠ '0'
  | 0, n, h, h2 => by omega
  | fuel + 1, n, h, h2 => by
    have hn : ¬n = 0 := by omega
    by_cases hdiv : n / 10 = 0
    · have hlt : n < 10 := by omega
      refine ⟨digitChar (n % 10), [], ?_, isDigitChar_digitChar (Nat.mod_lt n (by omega)), ?_⟩
      · simp [dumpNatAux, hn, hdiv, dumpNatAux_zero]
      · apply char_ne_of_toNat_ne
        rw [digitChar_toNat (Nat.mod_lt n (by omega))]
        have : n % 10 = n := Nat.mod_eq_of_lt hlt
        simp [this]
        omega
    · have hfuel : n / 10 ≤ fuel := by
        have := Nat.div_lt_self (Nat.pos_of_ne_zero hn) (by omega : 1 < 10)
        omega
      obtain ⟨d, ds, hA, hd1, hd2⟩ :=
        dumpNatAux_head fuel (n / 10) (Nat.pos_of_ne_zero hdiv) hfuel
      refine ⟨d, ds ++ [digitChar (n % 10)], ?_, hd1, hd2⟩
      simp [dumpNatAux, hn, hA]

theorem dumpNat_head (n : Nat) :
    ∃ d ds, dumpNat n = d :: ds ∧ isDigitChar d = true := by
  by_cases hn : n = 0
  · exact ⟨'0', [], by simp [dumpNat, hn], by decide⟩
  · obtain ⟨d, ds, hA, hd1, _⟩ := dumpNatAux_head n n (Nat.pos_of_ne_zero hn) le_rfl
    exact ⟨d, ds, by simp [dumpNat, hn, hA], hd1⟩

theorem parseUNum_dumpNat (n : Nat) (rest : List Char) (h : headNotDigit rest = true) :
    parseUNum (dumpNat n ++ rest) = some (n, rest) := by
  by_cases hn : n = 0
  · subst hn
    show parseUNum ('0' :: rest) = some (0, rest)
    rfl
  · unfold dumpNat
    rw [if_neg hn]
    obtain ⟨d, ds, hA, hdig, hne0⟩ := dumpNatAux_head n n (Nat.pos_of_ne_zero hn) le_rfl
    rw [hA]
    show parseUNum (d :: (ds ++ rest)) = some (n, rest)
    simp only [parseUNum]
    rw [if_neg hne0]
    simp only [hdig, if_true]
    have hds : ∀ x ∈ ds, isDigitChar x = true := by
      intro x hx
      exact dumpNatAux_digits n n le_rfl x (by rw [hA]; simp [hx])
    rw [parseDigits_append ds rest _ hds, parseDigits_stop rest _ h]
    have hval := foldDigits_dumpNatAux n n 0 le_rfl
    rw [hA] at hval
    have : foldDigits 0 (d :: ds) = foldDigits (d.toNat - 48) ds := by
      simp [foldDigits]
    rw [this] at hval
    simp at hval
    rw [hval]

theorem parseNum_dumpInt (i : Int) (rest : List Char) (h : headNotDigit rest = true) :
    parseNum (dumpInt i ++ rest) = some (i, rest) := by
  by_cases hneg : i < 0
  · unfold dumpInt
    rw [if_pos hneg]
    show parseNum ('-' :: (dumpNat i.natAbs ++ rest)) = some (i, rest)
    simp only [parseNum, if_true]
    rw [parseUNum_dumpNat i.natAbs rest h]
    have hv : -((i.natAbs : Nat) : Int) = i := by omega
    simp only [Option.map]
    rw [hv]
  · unfold dumpInt
    rw [if_neg hneg]
    obtain ⟨c, cs, hc, hcd⟩ := dumpNat_head i.toNat
    rw [hc]
    show parseNum (c :: (cs ++ rest)) = some (i, rest)
    simp only [parseNum]
    have hcne : c ≠ '-' := by
      apply char_ne_of_toNat_ne
      have hb := isDigitChar_bounds hcd
      intro hEq
      rw [hEq] at hb
      exact absurd hb (by decide)
    rw [if_neg hcne]
    rw [show c :: (cs ++ rest) = (c :: cs) ++ rest from rfl, ← hc,
      parseUNum_dumpNat i.toNat rest h]
    have hv : ((i.toNat : Nat) : Int) = i := by omega
    simp only [Option.map]
    rw [hv]

theorem hexVal_hexDigit {m : Nat} (h : m < 16) : hexVal (hexDigit m) = some m := by
  interval_cases m <;> decide

theorem parseStringBody_escChars : ∀ (cs : List Char) (fuel : Nat) (rest : List Char),
    (escChars cs).length + 1 ≤ fuel →
    parseStringBody fuel (escChars cs ++ '"' :: rest) = some (cs, rest)
  | [], fuel, rest, hfuel => by
    match fuel, hfuel with
    | f + 1, _ =>
      show parseStringBody (f + 1) ('"' :: rest) = some ([], rest)
      rfl
  | c :: cs, fuel, rest, hfuel => by
    by_cases hq : c = '"'
    · subst hq
      have hlen : (escChars ('"' :: cs)).length = 2 + (escChars cs).length := by
        simp [escChars]
        omega
      match fuel, hfuel with
      | f + 1, hfuel =>
        rw [show escChars ('"' :: cs) ++ '"' :: rest =
            '\\' :: '"' :: (escChars cs ++ '"' :: rest) by simp [escChars]]
        rw [show parseStringBody (f + 1) ('\\' :: '"' :: (escChars cs ++ '"' :: rest)) =
            (parseStringBody f (escChars cs ++ '"' :: rest)).map
              (fun p => ('"' :: p.1, p.2)) from rfl]
        rw [parseStringBody_escChars cs f rest (by omega)]
        rfl
    · by_cases hb : c = '\\'
      · subst hb
        have hlen : (escChars ('\\' :: cs)).length = 2 + (escChars cs).length := by
          simp [escChars]
          omega
        match fuel, hfuel with
        | f + 1, hfuel =>
          rw [show escChars ('\\' :: cs) ++ '"' :: rest =
              '\\' :: '\\' :: (escChars cs ++ '"' :: rest) by simp [escChars]]
          rw [show parseStringBody (f + 1) ('\\' :: '\\' :: (escChars cs ++ '"' :: rest)) =
              (parseStringBody f (escChars cs ++ '"' :: rest)).map
                (fun p => ('\\' :: p.1, p.2)) from rfl]
          rw [parseStringBody_escChars cs f rest (by omega)]
          rfl
      · by_cases hctrl : c.toNat < 32
        · have hlen : (escChars (c :: cs)).length = 6 + (escChars cs).length := by
            simp [escChars, hq, hb, hctrl]
            omega
          have hdivlt : c.toNat / 16 < 16 := by omega
          have hmodlt : c.toNat % 16 < 16 := by omega
          match fuel, hfuel with
          | f + 1, hfuel =>
            rw [show escChars (c :: cs) ++ '"' :: rest =
                '\\' :: 'u' :: '0' :: '0' :: hexDigit (c.toNat / 16) ::
                  hexDigit (c.toNat % 16) :: (escChars cs ++ '"' :: rest) by
              simp [escChars, hq, hb, hctrl]]
            rw [show parseStringBody (f + 1)
                ('\\' :: 'u' :: '0' :: '0' :: hexDigit (c.toNat / 16) ::
                  hexDigit (c.toNat % 16) :: (escChars cs ++ '"' :: rest)) =
                (match hexVal '0', hexVal '0', hexVal (hexDigit (c.toNat / 16)),
                    hexVal (hexDigit (c.toNat % 16)) with
                  | some a, some b, some c', some d =>
                    (parseStringBody f (escChars cs ++ '"' :: rest)).map
                      (fun p => (Char.ofNat (a * 4096 + b * 256 + c' * 16 + d) :: p.1, p.2))
                  | _, _, _, _ => none) from rfl]
            rw [show hexVal '0' = some 0 from rfl, hexVal_hexDigit hdivlt,
              hexVal_hexDigit hmodlt]
            show (parseStringBody f (escChars cs ++ '"' :: rest)).map
              (fun p => (Char.ofNat (0 * 4096 + 0 * 256 + c.toNat / 16 * 16 + c.toNat % 16) ::
                p.1, p.2)) = some (c :: cs, rest)
            rw [show 0 * 4096 + 0 * 256 + c.toNat / 16 * 16 + c.toNat % 16 = c.toNat by omega,
              Char.ofNat_toNat, parseStringBody_escChars cs f rest (by omega)]
            rfl
        · have hlen : (escChars (c :: cs)).length = 1 + (escChars cs).length := by
            simp [escChars, hq, hb, hctrl]
            omega
          match fuel, hfuel with
          | f + 1, hfuel =>
            rw [show escChars (c :: cs) ++ '"' :: rest =
                c :: (escChars cs ++ '"' :: rest) by simp [escChars, hq, hb, hctrl]]
            simp only [parseStringBody]
            rw [if_neg hq, if_neg hb, if_neg hctrl,
              parseStringBody_escChars cs f rest (by omega)]
            rfl

mutual

/-- Fuel needed by `parseValue` to read back a serialized value. -/
def cost : JValue → Nat
  | .null => 1
  | .bool _ => 1
  | .num _ => 1
  | .str _ => 1
  | .arr vs => 1 + costE vs
  | .obj kvs => 1 + costM kvs

/-- Fuel needed by `parseElems` to read back serialized array elements. -/
def costE : List JValue → Nat
  | [] => 1
  | v :: vs => 1 + max (cost v) (costE vs)

/-- Fuel needed by `parseMembers` to read back serialized object members. -/
def costM : List (String × JValue) → Nat
  | [] => 1
  | (_, v) :: kvs => 1 + max (cost v) (costM kvs)

end

theorem one_le_cost (v : JValue) : 1 ≤ cost v := by
  cases v <;> simp [cost]

theorem one_le_costE (vs : List JValue) : 1 ≤ costE vs := by
  cases vs <;> simp [costE]

theorem one_le_costM (kvs : List (String × JValue)) : 1 ≤ costM kvs := by
  cases kvs with
  | nil => simp [costM]
  | cons kv kvs => obtain ⟨k, v⟩ := kv; simp [costM]

theorem skipWs_cons_false {c : Char} (h : isWsChar c = false) (cs : List Char) :
    skipWs (c :: cs) = c :: cs := by
  simp [skipWs, h]

theorem digit_ne_lit {d : Char} (h : isDigitChar d = true) {c : Char}
    (hc : c.toNat < 48 ∨ 57 < c.toNat) : d ≠ c := by
  have hb := isDigitChar_bounds h
  apply char_ne_of_toNat_ne
  omega

theorem digit_not_ws {d : Char} (h : isDigitChar d = true) : isWsChar d = false := by
  have hb := isDigitChar_bounds h
  simp [isWsChar]
  omega

/-- The serialized form of any value begins with a character that is
neither whitespace nor `]`. -/
theorem dump_head (v : JValue) :
    ∃ d ds, dumpChars v = d :: ds ∧ isWsChar d = false ∧ d ≠ ']' := by
  cases v with
  | null => exact ⟨'n', _, rfl, by decide, by decide⟩
  | bool b => cases b with
    | true => exact ⟨'t', _, rfl, by decide, by decide⟩
    | false => exact ⟨'f', _, rfl, by decide, by decide⟩
  | str s => exact ⟨'"', _, rfl, by decide, by decide⟩
  | arr vs => exact ⟨'[', _, rfl, by decide, by decide⟩
  | obj kvs => exact ⟨'\x7b', _, rfl, by decide, by decide⟩
  | num n =>
    by_cases hn : n < 0
    · refine ⟨'-', dumpNat n.natAbs, ?_, by decide, by decide⟩
      simp [dumpChars, dumpInt, hn]
    · obtain ⟨d, ds, hdump, hdig⟩ := dumpNat_head n.toNat
      refine ⟨d, ds, ?_, digit_not_ws hdig, digit_ne_lit hdig (by decide)⟩
      simp [dumpChars, dumpInt, hn, hdump]

theorem rt_all : ∀ fuel : Nat,
    (∀ (v : JValue) (rest : List Char), cost v ≤ fuel → headNotDigit rest = true →
      parseValue fuel (dumpChars v ++ rest) = some (v, rest)) ∧
    (∀ (vs : List JValue) (rest : List Char), vs ≠ [] → costE vs ≤ fuel →
      parseElems fuel (dumpElems vs ++ ']' :: rest) = some (vs, rest)) ∧
    (∀ (kvs : List (String × JValue)) (rest : List Char), kvs ≠ [] → costM kvs ≤ fuel →
      parseMembers fuel (dumpMembers kvs ++ '\x7d' :: rest) = some (kvs, rest)) := by
  intro fuel
  induction fuel with
  | zero =>
    refine ⟨?_, ?_, ?_⟩
    · intro v rest hc _
      exact absurd hc (by have := one_le_cost v; omega)
    · intro vs rest _ hc
      exact absurd hc (by have := one_le_costE vs; omega)
    · intro kvs rest _ hc
      exact absurd hc (by have := one_le_costM kvs; omega)
  | succ fuel ih =>
    obtain ⟨ihV, ihE, ihM⟩ := ih
    refine ⟨?_, ?_, ?_⟩
    · -- values
      intro v rest hc hd
      cases v with
      | null => rfl
      | bool b => cases b <;> rfl
      | str s =>
        rw [show dumpChars (JValue.str s) ++ rest =
            '"' :: (escChars s.data ++ '"' :: rest) by simp [dumpChars]]
        rw [show parseValue (fuel + 1) ('"' :: (escChars s.data ++ '"' :: rest)) =
            (parseStringBody (escChars s.data ++ '"' :: rest).length
              (escChars s.data ++ '"' :: rest)).map
              (fun p => (JValue.str (String.mk p.1), p.2)) from rfl]
        rw [parseStringBody_escChars s.data _ rest (by simp)]
        rfl
      | num n =>
        by_cases hn : n < 0
        · rw [show dumpChars (JValue.num n) ++ rest =
              '-' :: (dumpNat n.natAbs ++ rest) by simp [dumpChars, dumpInt, hn]]
          rw [show parseValue (fuel + 1) ('-' :: (dumpNat n.natAbs ++ rest)) =
              (parseNum ('-' :: (dumpNat n.natAbs ++ rest))).map
                (fun p => (JValue.num p.1, p.2)) from rfl]
          rw [show ('-' :: (dumpNat n.natAbs ++ rest)) = dumpInt n ++ rest by
            simp [dumpInt, hn]]
          rw [parseNum_dumpInt n rest hd]
          rfl
        · obtain ⟨d, ds, hdump, hdig⟩ := dumpNat_head n.toNat
          rw [show dumpChars (JValue.num n) ++ rest = d :: (ds ++ rest) by
            simp [dumpChars, dumpInt, hn, hdump]]
          simp only [parseValue]
          rw [skipWs_cons_false (digit_not_ws hdig)]
          show (if d = 'n' then _ else _) = _
          rw [if_neg (digit_ne_lit hdig (by decide)), if_neg (digit_ne_lit hdig (by decide)),
            if_neg (digit_ne_lit hdig (by decide)), if_neg (digit_ne_lit hdig (by decide)),
            if_neg (digit_ne_lit hdig (by decide)), if_neg (digit_ne_lit hdig (by decide)),
            if_neg (digit_ne_lit hdig (by decide))]
          simp only [hdig, if_true]
          rw [show d :: (ds ++ rest) = dumpInt n ++ rest by simp [dumpInt, hn, hdump]]
          rw [parseNum_dumpInt n rest hd]
          rfl
      | arr vs =>
        cases vs with
        | nil =>
          rw [show dumpChars (JValue.arr []) ++ rest = '[' :: ']' :: rest by
            simp [dumpChars, dumpElems]]
          rfl
        | cons v vs' =>
          obtain ⟨d, t0, hdump, hws, hbr⟩ := dump_head v
          have hcons : ∃ t, dumpElems (v :: vs') = d :: t := by
            cases vs' with
            | nil => exact ⟨t0, by simp [dumpElems, hdump]⟩
            | cons w ws => exact ⟨t0 ++ ',' :: dumpElems (w :: ws), by simp [dumpElems, hdump]⟩
          obtain ⟨t, ht⟩ := hcons
          have hcost : costE (v :: vs') ≤ fuel := by
            simp only [cost] at hc
            omega
          rw [show dumpChars (JValue.arr (v :: vs')) ++ rest =
              '[' :: (d :: (t ++ ']' :: rest)) by simp [dumpChars, ht]]
          rw [show parseValue (fuel + 1) ('[' :: (d :: (t ++ ']' :: rest))) =
              (match skipWs (d :: (t ++ ']' :: rest)) with
                | [] => none
                | d₀ :: r =>
                  if d₀ = ']' then some (JValue.arr [], r)
                  else (parseElems fuel (d₀ :: r)).map
                    (fun p => (JValue.arr p.1, p.2))) from rfl]
          rw [skipWs_cons_false hws]
          show (if d = ']' then some (JValue.arr [], t ++ ']' :: rest)
            else (parseElems fuel (d :: (t ++ ']' :: rest))).map
              (fun p => (JValue.arr p.1, p.2))) = _
          rw [if_neg hbr]
          rw [show d :: (t ++ ']' :: rest) = dumpElems (v :: vs') ++ ']' :: rest by
            simp [ht]]
          rw [ihE (v :: vs') rest (by simp) hcost]
          rfl
      | obj kvs =>
        cases kvs with
        | nil =>
          rw [show dumpChars (JValue.obj []) ++ rest = '\x7b' :: '\x7d' :: rest by
            simp [dumpChars, dumpMembers]]
          rfl
        | cons kv kvs' =>
          obtain ⟨k, v⟩ := kv
          have hcons : ∃ t, dumpMembers ((k, v) :: kvs') = '"' :: t := by
            cases kvs' with
            | nil => exact ⟨escChars k.data ++ '"' :: ':' :: dumpChars v, by
                simp [dumpMembers]⟩
            | cons kv₂ kvs₂ =>
              exact ⟨(escChars k.data ++ '"' :: ':' :: dumpChars v) ++
                ',' :: dumpMembers (kv₂ :: kvs₂), by simp [dumpMembers]⟩
          obtain ⟨t, ht⟩ := hcons
          have hcost : costM ((k, v) :: kvs') ≤ fuel := by
            simp only [cost] at hc
            omega
          rw [show dumpChars (JValue.obj ((k, v) :: kvs')) ++ rest =
              '\x7b' :: ('"' :: (t ++ '\x7d' :: rest)) by simp [dumpChars, ht]]
          rw [show parseValue (fuel + 1) ('\x7b' :: ('"' :: (t ++ '\x7d' :: rest))) =
              (parseMembers fuel ('"' :: (t ++ '\x7d' :: rest))).map
                (fun p => (JValue.obj p.1, p.2)) from rfl]
          rw [show '"' :: (t ++ '\x7d' :: rest) =
              dumpMembers ((k, v) :: kvs') ++ '\x7d' :: rest by simp [ht]]
          rw [ihM ((k, v) :: kvs') rest (by simp) hcost]
          rfl
    · -- array elements
      intro vs rest hne hcost
      cases vs with
      | nil => exact absurd rfl hne
      | cons v vs' =>
        cases vs' with
        | nil =>
          have hc : cost v ≤ fuel := by
            simp only [costE] at hcost
            omega
          rw [show dumpElems [v] ++ ']' :: rest = dumpChars v ++ ']' :: rest by
            simp [dumpElems]]
          rw [show parseElems (fuel + 1) (dumpChars v ++ ']' :: rest) =
              (match parseValue fuel (dumpChars v ++ ']' :: rest) with
                | none => none
                | some (v₀, rest₁) =>
                  match skipWs rest₁ with
                  | [] => none
                  | d :: r =>
                    if d = ',' then (parseElems fuel r).map (fun p => (v₀ :: p.1, p.2))
                    else if d = ']' then some ([v₀], r)
                    else none) from rfl]
          rw [ihV v (']' :: rest) hc rfl]
          rfl
        | cons w ws =>
          have hc : cost v ≤ fuel ∧ costE (w :: ws) ≤ fuel := by
            simp only [costE] at hcost ⊢
            omega
          rw [show dumpElems (v :: w :: ws) ++ ']' :: rest =
              dumpChars v ++ (',' :: (dumpElems (w :: ws) ++ ']' :: rest)) by
            simp [dumpElems]]
          rw [show parseElems (fuel + 1)
              (dumpChars v ++ (',' :: (dumpElems (w :: ws) ++ ']' :: rest))) =
              (match parseValue fuel
                  (dumpChars v ++ (',' :: (dumpElems (w :: ws) ++ ']' :: rest))) with
                | none => none
                | some (v₀, rest₁) =>
                  match skipWs rest₁ with
                  | [] => none
                  | d :: r =>
                    if d = ',' then (parseElems fuel r).map (fun p => (v₀ :: p.1, p.2))
                    else if d = ']' then some ([v₀], r)
                    else none) from rfl]
          rw [ihV v (',' :: (dumpElems (w :: ws) ++ ']' :: rest)) hc.1 rfl]
          show (parseElems fuel (dumpElems (w :: ws) ++ ']' :: rest)).map
            (fun p => (v :: p.1, p.2)) = _
          rw [ihE (w :: ws) rest (by simp) hc.2]
          rfl
    · -- object members
      intro kvs rest hne hcost
      cases kvs with
      | nil => exact absurd rfl hne
      | cons kv kvs' =>
        obtain ⟨k, v⟩ := kv
        cases kvs' with
        | nil =>
          have hc : cost v ≤ fuel := by
            simp only [costM] at hcost
            omega
          rw [show dumpMembers [(k, v)] ++ '\x7d' :: rest =
              '"' :: (escChars k.data ++ '"' ::
                (':' :: (dumpChars v ++ '\x7d' :: rest))) by simp [dumpMembers]]
          rw [show parseMembers (fuel + 1)
              ('"' :: (escChars k.data ++ '"' :: (':' :: (dumpChars v ++ '\x7d' :: rest)))) =
              (match parseStringBody
                  (escChars k.data ++ '"' :: (':' :: (dumpChars v ++ '\x7d' :: rest))).length
                  (escChars k.data ++ '"' :: (':' :: (dumpChars v ++ '\x7d' :: rest))) with
                | none => none
                | some (k₀, rest₂) =>
                  match skipWs rest₂ with
                  | [] => none
                  | d :: rest₃ =>
                    if d = ':' then
                      match parseValue fuel rest₃ with
                      | none => none
                      | some (v₀, rest₄) =>
                        match skipWs rest₄ with
                        | [] => none
                        | e :: r =>
                          if e = ',' then (parseMembers fuel r).map
                            (fun p => ((String.mk k₀, v₀) :: p.1, p.2))
                          else if e = '\x7d' then some ([(String.mk k₀, v₀)], r)
                          else none
                    else none) from rfl]
          rw [parseStringBody_escChars k.data _ (':' :: (dumpChars v ++ '\x7d' :: rest))
            (by simp)]
          show (match parseValue fuel (dumpChars v ++ '\x7d' :: rest) with
            | none => none
            | some (v₀, rest₄) =>
              match skipWs rest₄ with
              | [] => none
              | e :: r =>
                if e = ',' then (parseMembers fuel r).map
                  (fun (p : List (String × JValue) × List Char) =>
                    ((String.mk k.data, v₀) :: p.1, p.2))
                else if e = '\x7d' then some ([(String.mk k.data, v₀)], r)
                else none) = _
          rw [ihV v ('\x7d' :: rest) hc rfl]
          rfl
        | cons kv₂ kvs₂ =>
          have hc : cost v ≤ fuel ∧ costM (kv₂ :: kvs₂) ≤ fuel := by
            simp only [costM] at hcost ⊢
            omega
          rw [show dumpMembers ((k, v) :: kv₂ :: kvs₂) ++ '\x7d' :: rest =
              '"' :: (escChars k.data ++ '"' ::
                (':' :: (dumpChars v ++
                  (',' :: (dumpMembers (kv₂ :: kvs₂) ++ '\x7d' :: rest))))) by
            simp [dumpMembers]]
          rw [show parseMembers (fuel + 1)
              ('"' :: (escChars k.data ++ '"' :: (':' :: (dumpChars v ++
                (',' :: (dumpMembers (kv₂ :: kvs₂) ++ '\x7d' :: rest)))))) =
              (match parseStringBody
                  (escChars k.data ++ '"' :: (':' :: (dumpChars v ++
                    (',' :: (dumpMembers (kv₂ :: kvs₂) ++ '\x7d' :: rest))))).length
                  (escChars k.data ++ '"' :: (':' :: (dumpChars v ++
                    (',' :: (dumpMembers (kv₂ :: kvs₂) ++ '\x7d' :: rest))))) with
                | none => none
                | some (k₀, rest₂) =>
                  match skipWs rest₂ with
                  | [] => none
                  | d :: rest₃ =>
                    if d = ':' then
                      match parseValue fuel rest₃ with
                      | none => none
                      | some (v₀, rest₄) =>
                        match skipWs rest₄ with
                        | [] => none
                        | e :: r =>
                          if e = ',' then (parseMembers fuel r).map
                            (fun p => ((String.mk k₀, v₀) :: p.1, p.2))
                          else if e = '\x7d' then some ([(String.mk k₀, v₀)], r)
                          else none
                    else none) from rfl]
          rw [parseStringBody_escChars k.data _
            (':' :: (dumpChars v ++ (',' :: (dumpMembers (kv₂ :: kvs₂) ++ '\x7d' :: rest))))
            (by simp)]
          show (match parseValue fuel (dumpChars v ++
              (',' :: (dumpMembers (kv₂ :: kvs₂) ++ '\x7d' :: rest))) with
            | none => none
            | some (v₀, rest₄) =>
              match skipWs rest₄ with
              | [] => none
              | e :: r =>
                if e = ',' then (parseMembers fuel r).map
                  (fun (p : List (String × JValue) × List Char) =>
                    ((String.mk k.data, v₀) :: p.1, p.2))
                else if e = '\x7d' then some ([(String.mk k.data, v₀)], r)
                else none) = _
          rw [ihV v (',' :: (dumpMembers (kv₂ :: kvs₂) ++ '\x7d' :: rest)) hc.1 rfl]
          show (parseMembers fuel (dumpMembers (kv₂ :: kvs₂) ++ '\x7d' :: rest)).map
            (fun p => ((String.mk k.data, v) :: p.1, p.2)) = _
          rw [ihM (kv₂ :: kvs₂) rest (by simp) hc.2]
          rfl

mutual

theorem cost_le_dumpLen : ∀ v : JValue, cost v ≤ (dumpChars v).length
  | .null => by simp [cost, dumpChars]
  | .bool b => by cases b <;> simp [cost, dumpChars]
  | .num n => by
    obtain ⟨d, ds, hdump, _, _⟩ := dump_head (.num n)
    simp [cost, hdump]
  | .str s => by simp [cost, dumpChars]
  | .arr vs => by
    have h := costE_le_dumpLen vs
    simp only [cost, dumpChars, List.length_cons, List.length_append, List.length_singleton]
    omega
  | .obj kvs => by
    have h := costM_le_dumpLen kvs
    simp only [cost, dumpChars, List.length_cons, List.length_append, List.length_singleton]
    omega

theorem costE_le_dumpLen : ∀ vs : List JValue, costE vs ≤ (dumpElems vs).length + 1
  | [] => by simp [costE, dumpElems]
  | [v] => by
    have h1 := cost_le_dumpLen v
    have h2 := one_le_cost v
    simp only [costE, dumpElems, List.length_nil]
    omega
  | v :: w :: ws => by
    have h1 := cost_le_dumpLen v
    have h2 := one_le_cost v
    have h3 := costE_le_dumpLen (w :: ws)
    have hcost : costE (v :: w :: ws) = 1 + max (cost v) (costE (w :: ws)) := rfl
    have hdump : dumpElems (v :: w :: ws) = dumpChars v ++ ',' :: dumpElems (w :: ws) := rfl
    rw [hcost, hdump]
    simp only [List.length_append, List.length_cons]
    omega

theorem costM_le_dumpLen : ∀ kvs : List (String × JValue),
    costM kvs ≤ (dumpMembers kvs).length + 1
  | [] => by simp [costM, dumpMembers]
  | [(k, v)] => by
    have h1 := cost_le_dumpLen v
    have h2 := one_le_cost v
    simp only [costM, dumpMembers, List.length_cons, List.length_append]
    omega
  | (k, v) :: kv₂ :: kvs₂ => by
    have h1 := cost_le_dumpLen v
    have h2 := one_le_cost v
    have h3 := costM_le_dumpLen (kv₂ :: kvs₂)
    have hcost : costM ((k, v) :: kv₂ :: kvs₂) = 1 + max (cost v) (costM (kv₂ :: kvs₂)) := rfl
    have hdump : dumpMembers ((k, v) :: kv₂ :: kvs₂) =
        ('"' :: (escChars k.data ++ '"' :: ':' :: dumpChars v)) ++
          ',' :: dumpMembers (kv₂ :: kvs₂) := rfl
    rw [hcost, hdump]
    simp only [List.length_append, List.length_cons]
    omega

end

/-- Round trip: reading back the serialized form of any JSON value yields
that value. -/
theorem jsonParse_dump (v : JValue) : jsonParse (String.mk (dumpChars v)) = some v := by
  have h := (rt_all ((dumpChars v).length + 1)).1 v []
    (by have := cost_le_dumpLen v; omega) rfl
  rw [List.append_nil] at h
  show (match parseValue ((dumpChars v).length + 1) (dumpChars v) with
    | some (v₀, rest) => if skipWs rest = [] then some v₀ else none
    | none => none) = some v
  rw [h]
  rfl

theorem fixEntryOf_fixEntryToJson (f : FixEntry) : fixEntryOf (fixEntryToJson f) = some f := rfl

theorem rulesOf_ne_nil (o : Option JValue) : rulesOf o ≠ [] := by
  cases o with
  | none => simp [rulesOf]
  | some v =>
    cases v with
    | str s => simp [rulesOf]
    | arr l =>
      by_cases h : l.isEmpty
      · simp [rulesOf, h]
      · have hl : l ≠ [] := by simpa [List.isEmpty_iff] using h
        simp [rulesOf, h, hl]
    | null => simp [rulesOf]
    | bool b => simp [rulesOf]
    | num n => simp [rulesOf]
    | obj kvs => simp [rulesOf]

theorem analysisOf_ne_empty (o : Option JValue) : analysisOf o ≠ "" := by
  cases o with
  | none => simp [analysisOf]
  | some v =>
    cases v with
    | str s =>
      by_cases h : s = ""
      · simp [analysisOf, h]
      · simp [analysisOf, h]
    | null => simp [analysisOf]
    | bool b => simp [analysisOf]
    | num n => simp [analysisOf]
    | arr l => simp [analysisOf]
    | obj kvs => simp [analysisOf]

theorem parse_ai_response_fields (s : String) (r : ParsedResponse)
    (h : parse_ai_response s = some r) :
    r.transformation_rules ≠ [] ∧ r.error_analysis ≠ "" := by
  unfold parse_ai_response at h
  cases hj : jsonParse s with
  | none =>
    rw [hj] at h
    injection h with h
    subst h
    exact ⟨by decide, by decide⟩
  | some v =>
    rw [hj] at h
    cases v with
    | obj kvs =>
      injection h with h
      subst h
      exact ⟨rulesOf_ne_nil _, analysisOf_ne_empty _⟩
    | null => exact absurd h (by simp)
    | bool b => exact absurd h (by simp)
    | num n => exact absurd h (by simp)
    | str s' => exact absurd h (by simp)
    | arr l => exact absurd h (by simp)

/-- Claim C8 (amended): `parse_ai_response` is idempotent on its own output
whenever the produced `suggested_fixes` list is nonempty: re-normalizing
the JSON-serialized form of such a result yields the same result.  (When a
present, nonempty `suggested_fixes` reply list has every element dropped,
the produced empty list re-normalizes to the default entry instead — see
the counterexample.) -/
theorem claim_C8_amended (s : String) (r : ParsedResponse)
    (h : parse_ai_response s = some r) (hfx : r.suggested_fixes ≠ []) :
    parse_ai_response (serializeParsed r) = some r := by
  obtain ⟨hrules, hana⟩ := parse_ai_response_fields s r h
  obtain ⟨rules, ea, fixes⟩ := r
  simp only at hrules hana hfx
  unfold serializeParsed parse_ai_response
  rw [jsonParse_dump (parsedToJson ⟨rules, ea, fixes⟩)]
  show some (⟨rulesOf (jget [("transformation_rules", JValue.arr rules),
      ("error_analysis", JValue.str ea),
      ("suggested_fixes", JValue.arr (fixes.map fixEntryToJson))] "transformation_rules"),
    analysisOf (jget [("transformation_rules", JValue.arr rules),
      ("error_analysis", JValue.str ea),
      ("suggested_fixes", JValue.arr (fixes.map fixEntryToJson))] "error_analysis"),
    fixesOf (jget [("transformation_rules", JValue.arr rules),
      ("error_analysis", JValue.str ea),
      ("suggested_fixes", JValue.arr (fixes.map fixEntryToJson))] "suggested_fixes")⟩ :
      ParsedResponse) = some ⟨rules, ea, fixes⟩
  rw [show jget [("transformation_rules", JValue.arr rules),
      ("error_analysis", JValue.str ea),
      ("suggested_fixes", JValue.arr (fixes.map fixEntryToJson))] "transformation_rules" =
    some (JValue.arr rules) from rfl]
  rw [show jget [("transformation_rules", JValue.arr rules),
      ("error_analysis", JValue.str ea),
      ("suggested_fixes", JValue.arr (fixes.map fixEntryToJson))] "error_analysis" =
    some (JValue.str ea) from rfl]
  rw [show jget [("transformation_rules", JValue.arr rules),
      ("error_analysis", JValue.str ea),
      ("suggested_fixes", JValue.arr (fixes.map fixEntryToJson))] "suggested_fixes" =
    some (JValue.arr (fixes.map fixEntryToJson)) from rfl]
  have h1 : rulesOf (some (JValue.arr rules)) = rules := by
    show (if rules.isEmpty then [JValue.str "No transformation rules generated"]
      else rules) = rules
    rw [if_neg (by simp [List.isEmpty_iff, hrules])]
  have h2 : analysisOf (some (JValue.str ea)) = ea := by
    show (if ea = "" then "No error analysis provided" else ea) = ea
    rw [if_neg hana]
  have h3 : fixesOf (some (JValue.arr (fixes.map fixEntryToJson))) = fixes := by
    show (if (fixes.map fixEntryToJson).isEmpty then
        [⟨JValue.str "No specific fixes suggested", JValue.str "medium", JValue.str "Unknown"⟩]
      else (fixes.map fixEntryToJson).filterMap fixEntryOf) = fixes
    rw [if_neg (by simp [List.isEmpty_iff, hfx])]
    rw [List.filterMap_map]
    rw [show (fixEntryOf ∘ fixEntryToJson) = some from funext fixEntryOf_fixEntryToJson]
    exact List.filterMap_some fixes
  rw [h1, h2, h3]

set_option maxRecDepth 8192 in
/-- Witness for the amended claim C8, at the C7 scenario result whose fixes
list is the nonempty default. -/
theorem claim_C8_amended_witness :
    parse_ai_response (serializeParsed
      ⟨[JValue.str "fix X"], "No error analysis provided",
        [⟨JValue.str "No specific fixes suggested", JValue.str "medium",
          JValue.str "Unknown"⟩]⟩) =
    some ⟨[JValue.str "fix X"], "No error analysis provided",
        [⟨JValue.str "No specific fixes suggested", JValue.str "medium",
          JValue.str "Unknown"⟩]⟩ :=
  claim_C8_amended
    "\x7b\"transformation_rules\":\"fix X\",\"error_analysis\":\"\",\"suggested_fixes\":[]\x7d"
    ⟨[JValue.str "fix X"], "No error analysis provided",
      [⟨JValue.str "No specific fixes suggested", JValue.str "medium", JValue.str "Unknown"⟩]⟩
    (by decide) (by decide)

/-- The result normalization produces for the C8 counterexample input: the
one reply element of `suggested_fixes` is dropped, leaving an empty list. -/
def cexParsed8 : ParsedResponse :=
  ⟨[JValue.str "No transformation rules generated"], "No error analysis provided", []⟩

set_option maxRecDepth 8192 in
/-- Claim C8 counterexample: normalizing `{"suggested_fixes":[1]}` yields a
result with an empty fixes list, and re-normalizing its serialized form
yields the default one-element fixes list instead, so normalize is not
idempotent on its own output as claimed. -/
theorem claim_C8_counterexample :
    parse_ai_response "\x7b\"suggested_fixes\":[1]\x7d" = some cexParsed8 ∧
    parse_ai_response (serializeParsed cexParsed8) ≠ some cexParsed8 := by
  decide
